import Mathlib

/-!
Verification development for the AgentWatch core orchestrator
(`.github/scripts/agentwatch.js`).

The JavaScript source is shallowly embedded: pure functions become Lean
functions on `String` / `List Char`, the per-pull-request comment replay
becomes an explicit fold over comment lists, and the label state machine of
`launchAgent` becomes a function on label sets.  Machine-level details that
the claims do not touch (network calls, logging, message formatting) are not
modelled; every modelled operation follows the control flow of the source
line by line.
-/

namespace AgentWatch

/-! ## JavaScript character classes

`jsIsSpace` models the JS regex class backslash-s (and `String.trim`'s
whitespace set) on the characters that can occur here; `jsIsWordChar`
models backslash-w; `jsIsLineTerm` models the line terminators that the JS
`.` metacharacter refuses to match. -/

def jsIsSpace (c : Char) : Bool :=
  c = ' ' || c = '\t' || c = '\n' || c = '\r' || c = '\x0b' || c = '\x0c' ||
  c = '\u00A0' || c = '\u1680' || (c ≥ '\u2000' && c ≤ '\u200A') ||
  c = '\u2028' || c = '\u2029' || c = '\u202F' || c = '\u205F' ||
  c = '\u3000' || c = '\uFEFF'

def jsIsWordChar (c : Char) : Bool :=
  (c ≥ 'a' && c ≤ 'z') || (c ≥ 'A' && c ≤ 'Z') || (c ≥ '0' && c ≤ '9') || c = '_'

def jsIsLineTerm (c : Char) : Bool :=
  c = '\n' || c = '\r' || c = '\u2028' || c = '\u2029'

/-! ## Pattern Compiler: the glob-to-regex string pipeline

`matchPattern` (agentwatch.js lines 15-50) rewrites the glob pattern into a
regex source string through a chain of global `String.replace` calls and
then evaluates it with `new RegExp(...).test(filepath)` inside a
try/catch.  Each `.replace` below is embedded as a left-to-right,
non-overlapping scan, exactly as the JS global-flag replace behaves. -/

/-- Source line 25: `.replace(/[.+^$\x7b\x7d()|\\]/g, '\\$&')` — the characters
escaped before glob tokens are substituted.  (Note: `[` and `]` are *not*
in this class in the source.) -/
def jsEscapeSpecial (c : Char) : Bool :=
  c = '.' || c = '+' || c = '^' || c = '$' || c = '\x7b' || c = '\x7d' ||
  c = '(' || c = ')' || c = '|' || c = '\\'

def escapeStep (s : List Char) : List Char :=
  (s.map (fun c => if jsEscapeSpecial c then ['\\', c] else [c])).flatten

/-- Source line 27: `.replace(/\*\*/g, '.*')`, a left-to-right
non-overlapping scan for two consecutive asterisks. -/
def starStarStep : List Char → List Char
  | '*' :: '*' :: rest => '.' :: '*' :: starStarStep rest
  | c :: rest => c :: starStarStep rest
  | [] => []

/-- Source line 29: `.replace(/\*/g, '[^/]*')`.  This runs *after* the
double-star step and therefore also rewrites the `*` of every `.*` the
previous step produced. -/
def starStep (s : List Char) : List Char :=
  (s.map (fun c => if c = '*' then ['[', '^', '/', ']', '*'] else [c])).flatten

/-- Source line 31: `.replace(/\?/g, '.')`. -/
def questionStep (s : List Char) : List Char :=
  s.map (fun c => if c = '?' then '.' else c)

/-- Source line 33: `.replace(/\[([^\]]+)\]/g, '[$1]')`.  The replacement
text reproduces the matched text verbatim, so this pass is the identity on
the string. -/
def classPassStep (s : List Char) : List Char := s

/-- The callback of source lines 35-38: `group.split(',')` joined with `|`,
i.e. every comma of the captured group becomes a pipe. -/
def mapCommaPipe (l : List Char) : List Char :=
  l.map (fun c => if c = ',' then '|' else c)

/-- Source line 35: `.replace(/\x7b([^\x7d]+)\x7d/g, cb)` — find an opening
brace, capture a maximal nonempty run of non-closing-brace characters,
require the closing brace, and emit a parenthesised pipe-separated group.
A brace with no such match is copied through and scanning resumes at the
next character, as a JS global replace does. -/
def braceStepFuel : Nat → List Char → List Char
  | 0, s => s
  | _, [] => []
  | fuel + 1, '\x7b' :: rest =>
    let grp := rest.takeWhile (fun c => c ≠ '\x7d')
    let rest2 := rest.drop (grp.length + 1)
    if grp ≠ [] ∧ (rest.drop grp.length).head? = some '\x7d' then
      '(' :: (mapCommaPipe grp ++ [')'] ++ braceStepFuel fuel rest2)
    else
      '\x7b' :: braceStepFuel fuel rest
  | fuel + 1, c :: rest => c :: braceStepFuel fuel rest

def braceStep (s : List Char) : List Char := braceStepFuel s.length s

/-- Source lines 23-41: the full glob-to-regex-source pipeline, with the
`^`/`$` anchors of line 41 added at both ends. -/
def globToRegexStr (pattern : String) : List Char :=
  '^' :: braceStep (classPassStep (questionStep (starStep
    (starStarStep (escapeStep pattern.data))))) ++ ['$']

/-! ## A regex engine for the producible subset

The pipeline can only emit: literal characters, backslash escapes,
character classes, `.`, the star quantifier, groups, alternation and the
two anchors.  The parser mirrors the JS `new RegExp` syntax on that subset
(including its syntax errors, e.g. an unterminated class or an unmatched
parenthesis); the matcher mirrors `RegExp.prototype.test`, i.e. a match may
start at any position. -/

/-- One item of a character class: a single character or a range. -/
inductive CItem where
  | single (c : Char)
  | range (lo hi : Char)
deriving DecidableEq, Repr

/-- Regex abstract syntax. -/
inductive RE where
  | emp
  | lit (c : Char)
  | anyc
  | cls (neg : Bool) (items : List CItem)
  | startA
  | endA
  | seq (a b : RE)
  | alt (a b : RE)
  | star (r : RE)
deriving DecidableEq, Repr

/-- Parse the body of a character class (after the `[` and the optional
`^`), up to and including the closing `]`, as ECMAScript ClassRanges on
the producible alphabet: a class atom is a backslash-escaped character or
a plain character; an atom, `-` and another atom form a range (with a
range out of order a syntax error) unless the `-` immediately precedes
the closing bracket, where it is a literal member, as is a leading or
otherwise unpaired `-`; a leading `]` closes an empty class.  Characters
are Lean scalar values, faithful to the UTF-16 comparison on the Basic
Multilingual Plane. -/
def parseItemsFuel : Nat → List Char → Option (List CItem × List Char)
  | 0, _ => none
  | _, [] => none
  | _ + 1, ']' :: r => some ([], r)
  | fuel + 1, s => do
    let (a, rest) ←
      match s with
      | '\\' :: c :: r1 => some (c, r1)
      | '\\' :: [] => none
      | c :: r1 => some (c, r1)
      | [] => none
    match rest with
    | '-' :: ']' :: r2 => do
      let (is, r3) ← parseItemsFuel fuel (']' :: r2)
      some (.single a :: .single '-' :: is, r3)
    | '-' :: r2 =>
      match r2 with
      | '\\' :: d :: r3 =>
        if a ≤ d then do
          let (is, r4) ← parseItemsFuel fuel r3
          some (.range a d :: is, r4)
        else none
      | '\\' :: [] => none
      | [] => none
      | d :: r3 =>
        if a ≤ d then do
          let (is, r4) ← parseItemsFuel fuel r3
          some (.range a d :: is, r4)
        else none
    | _ => do
      let (is, r2) ← parseItemsFuel fuel rest
      some (.single a :: is, r2)

def parseItems (s : List Char) : Option (List CItem × List Char) :=
  parseItemsFuel (s.length + 1) s

/-- Parse a class after its opening `[`. -/
def parseCls : List Char → Option (RE × List Char)
  | '^' :: r => do
    let (is, r2) ← parseItems r
    some (.cls true is, r2)
  | r => do
    let (is, r2) ← parseItems r
    some (.cls false is, r2)

/-- The recursive-descent parser as one fuel-indexed function so that the
kernel can evaluate it: mode 2 parses an alternation, mode 1 a sequence
(a run of starred atoms stopping at `|`, `)` or the end; an empty run is
epsilon, since an empty alternative is legal in JS), any other mode one
atom.  A bare `*` in atom position is the JS "nothing to repeat" syntax
error, as is a quantified anchor; a trailing lone backslash, an unmatched
`(` and an unterminated `[` also propagate `none`. -/
def parseRE : Nat → Nat → List Char → Option (RE × List Char)
  | 0, _, _ => none
  | fuel + 1, 2, s => do
    let (a, r) ← parseRE fuel 1 s
    match r with
    | '|' :: r2 => do
      let (b, r3) ← parseRE fuel 2 r2
      some (.alt a b, r3)
    | _ => some (a, r)
  | fuel + 1, 1, s =>
    match s with
    | [] => some (.emp, [])
    | '|' :: _ => some (.emp, s)
    | ')' :: _ => some (.emp, s)
    | _ => do
      let (a, r) ← parseRE fuel 0 s
      let (a2, r2) ←
        match r with
        | '*' :: r3 =>
          match a with
          | .startA => none
          | .endA => none
          | _ => some (RE.star a, r3)
        | _ => some (a, r)
      let (b, r4) ← parseRE fuel 1 r2
      some (.seq a2 b, r4)
  | fuel + 1, _, s =>
    match s with
    | [] => none
    | '(' :: r => do
      let (a, r2) ← parseRE fuel 2 r
      match r2 with
      | ')' :: r3 => some (a, r3)
      | _ => none
    | '[' :: r => parseCls r
    | '\\' :: c :: r => some (.lit c, r)
    | '\\' :: [] => none
    | '.' :: r => some (.anyc, r)
    | '^' :: r => some (.startA, r)
    | '$' :: r => some (.endA, r)
    | '*' :: _ => none
    | c :: r => some (.lit c, r)

/-- Compile a regex source string; `none` models a `SyntaxError` thrown by
`new RegExp`.  The fuel bounds the recursion depth of the descent; each
parser call consumes it by one and any parse of `s` descends fewer than
`4 * s.length + 16` times. -/
def compileRegex (s : List Char) : Option RE := do
  let (r, rest) ← parseRE (4 * s.length + 16) 2 s
  match rest with
  | [] => some r
  | _ => none

/-- Does a class item accept a character? -/
def citemTest : CItem → Char → Bool
  | .single a, c => a = c
  | .range lo hi, c => lo ≤ c && c ≤ hi

/-- Does a (possibly negated) class accept a character? -/
def clsTest (neg : Bool) (items : List CItem) (c : Char) : Bool :=
  let m := items.any (fun it => citemTest it c)
  if neg then !m else m

/-- Transitive closure of a step function over positions, used for the star
quantifier: collect every position reachable by repeatedly applying the
body, never revisiting a position (a repeated empty match terminates the
loop in JS as well).  Positions are bounded by the subject length, so the
fuel `length + 2` suffices. -/
def starClosure (step : Nat → List Nat) : Nat → List Nat → List Nat → List Nat
  | 0, _, acc => acc
  | fuel + 1, frontier, acc =>
    let nxt := ((frontier.map step).flatten).filter (fun j => !acc.contains j)
    match nxt with
    | [] => acc
    | _ => starClosure step fuel nxt (acc ++ nxt)

/-- The call `mrun s r i` is the list of end positions of matches of `r` beginning at
position `i` of subject `s`. -/
def mrun (s : List Char) : RE → Nat → List Nat
  | .emp, i => [i]
  | .lit c, i =>
    match s.get? i with
    | some d => if c = d then [i + 1] else []
    | none => []
  | .anyc, i =>
    match s.get? i with
    | some d => if jsIsLineTerm d then [] else [i + 1]
    | none => []
  | .cls neg items, i =>
    match s.get? i with
    | some d => if clsTest neg items d then [i + 1] else []
    | none => []
  | .startA, i => if i = 0 then [i] else []
  | .endA, i => if i = s.length then [i] else []
  | .seq a b, i => ((mrun s a i).map (mrun s b)).flatten
  | .alt a b, i => mrun s a i ++ mrun s b i
  | .star r, i => starClosure (mrun s r) (s.length + 2) [i] [i]

/-- Model of `RegExp.prototype.test`: some match starting at some position. -/
def reTest (r : RE) (s : List Char) : Bool :=
  (List.range (s.length + 1)).any (fun i => !(mrun s r i).isEmpty)

/-- agentwatch.js lines 15-50, `matchPattern(pattern, filepath)`: the `*`
special case, the direct string-equality case, then regex compilation and
test inside a try/catch whose catch returns `false`. -/
def matchPattern (pattern filepath : String) : Bool :=
  if pattern = "*" then true
  else if pattern = filepath then true
  else
    match compileRegex (globToRegexStr pattern) with
    | some r => reTest r filepath.data
    | none => false

/-! ## Command Parser: the comment-body regexes

The replay fold (source lines 586-620) recognises commands with two
regexes; `handleComment` (lines 73-131) parses a live watch command with
string splitting.  Both are embedded below.  The regexes begin with a
literal token, so the engine's first-match search is a left-to-right scan
for an occurrence of the literal whose tail the rest of the regex accepts;
every quantified class in them is followed either by a disjoint class or by
nothing, so greedy runs need no backtracking (the single exception, the
whitespace run of `/@agent-watch\s+(.+)/`, is treated explicitly). -/

def startsWithL : List Char → List Char → Bool
  | [], _ => true
  | _ :: _, [] => false
  | c :: cs, d :: ds => c = d && startsWithL cs ds

def dropLit : List Char → List Char → Option (List Char)
  | [], s => some s
  | _ :: _, [] => none
  | c :: cs, d :: ds => if c = d then dropLit cs ds else none

/-- First position (left to right) where the literal token occurs and the
remainder is accepted by `tryTail`. -/
def scanFor (lit : List Char) (tryTail : List Char → Option α) : List Char → Option α
  | [] => none
  | s@(_ :: rest) =>
    match dropLit lit s with
    | some r =>
      match tryTail r with
      | some v => some v
      | none => scanFor lit tryTail rest
    | none => scanFor lit tryTail rest

/-- Model of `String.prototype.includes`. -/
def containsL (needle : List Char) : List Char → Bool
  | [] => needle.isEmpty
  | s@(_ :: rest) => startsWithL needle s || containsL needle rest

/-- Model of `String.prototype.trim` (both ends, JS whitespace). -/
def jsTrim (s : String) : String :=
  String.mk (((s.data.dropWhile jsIsSpace).reverse.dropWhile jsIsSpace).reverse)

/-- Tail of `/@agent-unwatch\s+(\w+)\s+([^\s]+)/` after the literal:
whitespace run, word run (the agent), whitespace run, non-whitespace run
(the pattern), each nonempty. -/
def tryUnwatchTail (s : List Char) : Option (String × String) :=
  if s.takeWhile jsIsSpace = [] then none
  else
    let r1 := s.dropWhile jsIsSpace
    let ag := r1.takeWhile jsIsWordChar
    let r2 := r1.dropWhile jsIsWordChar
    if ag = [] then none
    else if r2.takeWhile jsIsSpace = [] then none
    else
      let r3 := r2.dropWhile jsIsSpace
      let pat := r3.takeWhile (fun c => !jsIsSpace c)
      if pat = [] then none
      else some (String.mk ag, String.mk pat)

/-- Source lines 590, 312: `body.match(/@agent-unwatch\s+(\w+)\s+([^\s]+)/)`. -/
def parseUnwatch (body : String) : Option (String × String) :=
  scanFor "@agent-unwatch".data tryUnwatchTail body.data

/-- Tail of `/@agent-watch\s+([^\s]+)\s+(\w+)\s*(.*)/` after the literal:
pattern (non-whitespace run), agent (word run), optional whitespace, and the
verbatim rest of the line as `args` — note the ` @ ` separator of the live
parser is *not* recognised here. -/
def tryWatchTail (s : List Char) : Option (String × String × String) :=
  if s.takeWhile jsIsSpace = [] then none
  else
    let r1 := s.dropWhile jsIsSpace
    let pat := r1.takeWhile (fun c => !jsIsSpace c)
    let r2 := r1.dropWhile (fun c => !jsIsSpace c)
    if pat = [] then none
    else if r2.takeWhile jsIsSpace = [] then none
    else
      let r3 := r2.dropWhile jsIsSpace
      let ag := r3.takeWhile jsIsWordChar
      let r4 := r3.dropWhile jsIsWordChar
      if ag = [] then none
      else
        let r5 := r4.dropWhile jsIsSpace
        let args := r5.takeWhile (fun c => !jsIsLineTerm c)
        some (String.mk pat, String.mk ag, String.mk args)

/-- Source lines 606, 327: `body.match(/@agent-watch\s+([^\s]+)\s+(\w+)\s*(.*)/)`. -/
def parseWatch (body : String) : Option (String × String × String) :=
  scanFor "@agent-watch".data tryWatchTail body.data

/-! ## History Replayer: the comment fold of `handleNewPR` -/

structure WatchInfo where
  agent : String
  args : String
  sourcePR : Nat
deriving DecidableEq, Repr

structure Comment where
  body : String
  created_at : Nat
  id : Nat
deriving DecidableEq, Repr

/-- One pull request: its number and its two comment lists in API order. -/
structure PRData where
  number : Nat
  issueComments : List Comment
  reviewComments : List Comment
deriving DecidableEq, Repr

structure ReplayState where
  bindings : List (String × WatchInfo)
  exclusions : List (String × List String)
deriving DecidableEq, Repr

def lookupMap {α : Type} (k : String) : List (String × α) → Option α
  | [] => none
  | (k2, v) :: rest => if k2 = k then some v else lookupMap k rest

/-- Model of `Map.prototype.set`: overwrite in place when the key exists (a JS Map
keeps the original insertion position), else append. -/
def mapSet (k : String) (v : WatchInfo) :
    List (String × WatchInfo) → List (String × WatchInfo)
  | [] => [(k, v)]
  | (k2, v2) :: rest =>
    if k2 = k then (k2, v) :: rest else (k2, v2) :: mapSet k v rest

/-- Source lines 594-600: `unwatchPatterns.get(agentName).add(pattern)` with
lazy initialisation — a JS Set add, so a duplicate pattern is a no-op. -/
def exclAdd (agent pat : String) :
    List (String × List String) → List (String × List String)
  | [] => [(agent, [pat])]
  | (a, ps) :: rest =>
    if a = agent then (a, if pat ∈ ps then ps else ps ++ [pat]) :: rest
    else (a, ps) :: exclAdd agent pat rest

def exclGet (e : List (String × List String)) (agent : String) : List String :=
  (lookupMap agent e).getD []

/-- One step of the replay fold (source lines 586-620).  The unwatch regex
is tried first; a comment matching it only records an exclusion — the
bindings map is *not* touched.  Otherwise a comment matching the watch
regex inserts or overwrites the binding for its pattern, args trimmed. -/
def foldComment (prNumber : Nat) (st : ReplayState) (c : Comment) : ReplayState :=
  match parseUnwatch c.body with
  | some (agent, pat) => { st with exclusions := exclAdd agent pat st.exclusions }
  | none =>
    match parseWatch c.body with
    | some (pat, agent, args) =>
      { st with bindings := mapSet pat ⟨agent, jsTrim args, prNumber⟩ st.bindings }
    | none => st

/-- Stable insertion after every comment with an earlier-or-equal
timestamp; folding it over the list is extensionally the ECMAScript stable
`Array.prototype.sort` under the comparator
`new Date(a.created_at) - new Date(b.created_at)` (source lines 584, 306).
-/
def insertByTime (c : Comment) : List Comment → List Comment
  | [] => [c]
  | d :: ds =>
    if d.created_at ≤ c.created_at then d :: insertByTime c ds else c :: d :: ds

def sortComments (l : List Comment) : List Comment :=
  l.foldl (fun acc c => insertByTime c acc) []

/-- Source lines 563-620: one pull request's comments — issue comments then
review comments, sorted by creation timestamp — folded in order. -/
def foldPR (st : ReplayState) (pr : PRData) : ReplayState :=
  (sortComments (pr.issueComments ++ pr.reviewComments)).foldl (foldComment pr.number) st

/-- Source lines 555-625 of `handleNewPR`: the pull requests are processed
sequentially in listing order (open then closed); the pull request being
bootstrapped is skipped; there is no cross-pull-request merge of the
comment sequences. -/
def replayState (currentPR : Nat) (prs : List PRData) : ReplayState :=
  prs.foldl (fun st pr => if pr.number = currentPR then st else foldPR st pr) ⟨[], []⟩

/-! ## Binding Matcher: invocation computation of `handleNewPR` -/

structure Invocation where
  file_path : String
  agent : String
  args : String
  sourcePattern : String
deriving DecidableEq, Repr

/-- Source lines 646-655: is this file vetoed by one of the agent's
exclusion patterns? -/
def fileExcluded (excl : List (String × List String)) (agent f : String) : Bool :=
  match lookupMap agent excl with
  | some pats => pats.any (fun q => matchPattern q f)
  | none => false

/-- Source lines 642-658: the filter applied to the new pull request's
files for one binding. -/
def bindingFileOk (excl : List (String × List String)) (pstr : String)
    (info : WatchInfo) (f : String) : Bool :=
  matchPattern pstr f && !fileExcluded excl info.agent f

/-- Source lines 660-686: one invocation per matching file, skipping a
`file:agent` key that was already processed. -/
def addFilesForBinding (pstr : String) (info : WatchInfo) :
    List String → List String → List Invocation × List String
  | [], proc => ([], proc)
  | f :: fs, proc =>
    let key := f ++ ":" ++ info.agent
    if key ∈ proc then addFilesForBinding pstr info fs proc
    else
      let below := addFilesForBinding pstr info fs (proc ++ [key])
      (⟨f, info.agent, info.args, pstr⟩ :: below.1, below.2)

def computeInvs (excl : List (String × List String)) :
    List (String × WatchInfo) → List String → List String → List Invocation
  | [], _, _ => []
  | (pstr, info) :: rest, files, proc =>
    let matching := files.filter (bindingFileOk excl pstr info)
    let step := addFilesForBinding pstr info matching proc
    step.1 ++ computeInvs excl rest files step.2

/-- Source lines 636-687: every invocation `handleNewPR` dispatches for a
replayed state against the new pull request's file list. -/
def computeInvocations (st : ReplayState) (files : List String) : List Invocation :=
  computeInvs st.exclusions st.bindings files []

/-! ## Invocation Runner: the label state machine of `launchAgent` -/

def runningLabel : String := "agentwatch:running"

def failedLabel : String := "agent:failed"

def seenLabel (agent : String) : String := "agent:seen:" ++ agent

/-- GitHub's `addLabels` leaves an already-present label in place. -/
def addLabel (ls : List String) (x : String) : List String :=
  if x ∈ ls then ls else ls ++ [x]

def removeLabel (ls : List String) (x : String) : List String :=
  ls.filter (fun y => y ≠ x)

/-- The agent call either returns normally or raises; a thrown error and an
unresolvable agent name land in the same catch (source lines 758-777). -/
inductive AgentOutcome where
  | success
  | failure
deriving DecidableEq, Repr

def terminalLabel (agent : String) : AgentOutcome → String
  | .success => seenLabel agent
  | .failure => failedLabel

/-- Source lines 732-872, `launchAgent`, for a pull-request invocation with
reliable platform label writes: add the running label, run the agent, and
in the unconditional finally-block remove the running label and add the
terminal label of the outcome.  No code path removes a terminal label. -/
def launchAgentLabels (agent : String) (outcome : AgentOutcome)
    (ls : List String) : List String :=
  let l1 := addLabel ls runningLabel
  let l2 := removeLabel l1 runningLabel
  addLabel l2 (terminalLabel agent outcome)

/-! ## The live watch-command parse of `handleComment` -/

/-- Split on the first occurrence of a literal separator. -/
def splitFirst (sep : List Char) : List Char → Option (List Char × List Char)
  | [] => none
  | s@(c :: rest) =>
    match dropLit sep s with
    | some r => some ([], r)
    | none =>
      match splitFirst sep rest with
      | some (a, b) => some (c :: a, b)
      | none => none

/-- The second element of `fullCommand.split(' @ ', 2)`: the segment
between the first and second occurrence of the separator (everything after
the first when there is no second). -/
def secondSegment (sep : List Char) (s : List Char) : List Char :=
  match splitFirst sep s with
  | some (_, b) =>
    match splitFirst sep b with
    | some (b1, _) => b1
    | none => b
  | none => []

/-- The `\s+(.+)` tail of `/@agent-watch\s+(.+)/`: try the greedy
whitespace run first and hand trailing non-line-terminator whitespace back
to the capture when the remainder would start with a line terminator or the
end, as the JS engine's backtracking does.  `cmdCapture s k` tries the run
lengths `k, k-1, ..., 1`. -/
def cmdCapture (s : List Char) : Nat → Option (List Char)
  | 0 => none
  | k + 1 =>
    let r := s.drop (k + 1)
    match r.head? with
    | some c =>
      if jsIsLineTerm c then cmdCapture s k
      else some (r.takeWhile (fun d => !jsIsLineTerm d))
    | none => cmdCapture s k

def tryCmdTail (s : List Char) : Option (List Char) :=
  cmdCapture s (s.takeWhile jsIsSpace).length

/-- Model of `watchPart.trim().split(/\s+/)` on an already-trimmed string: the
whitespace-separated fields, or the single field `""` for the empty string,
as in JS. -/
def fieldsWSAux : Nat → List Char → List (List Char)
  | 0, _ => []
  | _, [] => []
  | fuel + 1, s =>
    let w := s.takeWhile (fun c => !jsIsSpace c)
    let r := (s.dropWhile (fun c => !jsIsSpace c)).dropWhile jsIsSpace
    w :: fieldsWSAux fuel r

def fieldsWS (s : List Char) : List (List Char) :=
  match s with
  | [] => [[]]
  | _ => fieldsWSAux s.length s

def joinSpace : List (List Char) → List Char
  | [] => []
  | [w] => w
  | w :: ws => w ++ ' ' :: joinSpace ws

/-- The parse performed by `handleComment` (source lines 73-131) on a live
comment: the `(fileTarget, agentName, args)` triple the handler goes on to
use, or `none` when the handler ignores the comment, routes it to the
unwatch/list handlers, or posts a format error.  The body is split on the
literal ` @ ` separator; without one, fields beyond the agent are joined as
args.  (When the first field is a `--` option and no agent field follows,
the source passes `undefined` on; no claim exercises that path and it is
modelled as `none`.) -/
def parseLiveWatch (body : String) : Option (String × String × String) :=
  let bl := body.data
  if !containsL "@agent-".data bl then none
  else if containsL "@agent-unwatch".data bl then none
  else if containsL "@agent-list".data bl then none
  else
    let fullCommand := (scanFor "@agent-watch".data tryCmdTail bl).getD []
    let hasAt := containsL " @ ".data fullCommand
    let watchPart :=
      if hasAt then
        match splitFirst " @ ".data fullCommand with
        | some (a, _) => a
        | none => fullCommand
      else fullCommand
    let agentArgs0 := if hasAt then secondSegment " @ ".data fullCommand else []
    let wp := fieldsWS (jsTrim (String.mk watchPart)).data
    match wp with
    | w0 :: w1 :: rest =>
      if startsWithL "--".data w0 then
        match rest with
        | w2 :: _ => some (String.mk w1, String.mk w2, jsTrim (String.mk agentArgs0))
        | [] => none
      else
        let args := if !hasAt && !rest.isEmpty then joinSpace rest else agentArgs0
        some (String.mk w0, String.mk w1, jsTrim (String.mk args))
    | _ => none

/-! ## Helper lemmas -/

theorem mem_addLabel {ls : List String} {x y : String} :
    y ∈ addLabel ls x ↔ y ∈ ls ∨ y = x := by
  unfold addLabel
  by_cases h : x ∈ ls
  · rw [if_pos h]
    constructor
    · exact Or.inl
    · rintro (hy | rfl)
      · exact hy
      · exact h
  · rw [if_neg h]
    simp

theorem mem_removeLabel {ls : List String} {x y : String} :
    y ∈ removeLabel ls x ↔ y ∈ ls ∧ y ≠ x := by
  unfold removeLabel
  simp

theorem seenLabel_ne_runningLabel (agent : String) : seenLabel agent ≠ runningLabel := by
  intro h
  obtain ⟨l⟩ := agent
  have hd : "agent:seen:".data ++ l = "agentwatch:running".data := congrArg String.data h
  have h5 : ("agent:seen:".data ++ l)[5]? = ("agentwatch:running".data)[5]? := by
    rw [hd]
  rw [List.getElem?_append_left (by decide)] at h5
  exact absurd h5 (by decide)

theorem seenLabel_ne_failedLabel (agent : String) : seenLabel agent ≠ failedLabel := by
  intro h
  obtain ⟨l⟩ := agent
  have hd : "agent:seen:".data ++ l = "agent:failed".data := congrArg String.data h
  have h6 : ("agent:seen:".data ++ l)[6]? = ("agent:failed".data)[6]? := by
    rw [hd]
  rw [List.getElem?_append_left (by decide)] at h6
  exact absurd h6 (by decide)

theorem failedLabel_ne_runningLabel : failedLabel ≠ runningLabel := by decide

theorem mem_exclGet_exclAdd_self (e : List (String × List String)) (A p : String) :
    p ∈ exclGet (exclAdd A p e) A := by
  induction e with
  | nil => simp [exclAdd, exclGet, lookupMap]
  | cons hd tl ih =>
    obtain ⟨a, ps⟩ := hd
    unfold exclAdd
    by_cases h : a = A
    · subst h
      by_cases hp : p ∈ ps
      · simp [exclGet, lookupMap, if_pos hp, hp]
      · simp [exclGet, lookupMap, if_neg hp]
    · rw [if_neg h]
      simpa [exclGet, lookupMap, h] using ih

theorem mem_exclGet_exclAdd (e : List (String × List String)) (A B p q : String)
    (h : p ∈ exclGet e A) : p ∈ exclGet (exclAdd B q e) A := by
  induction e with
  | nil => simp [exclGet, lookupMap] at h
  | cons hd tl ih =>
    obtain ⟨a, ps⟩ := hd
    unfold exclAdd
    by_cases hB : a = B
    · rw [if_pos hB]
      by_cases hA : a = A
      · subst hA
        simp [exclGet, lookupMap] at h ⊢
        by_cases hq : q ∈ ps
        · simpa [if_pos hq] using h
        · simp [if_neg hq]
          exact Or.inl h
      · simpa [exclGet, lookupMap, hA] using (by simpa [exclGet, lookupMap, hA] using h)
    · rw [if_neg hB]
      by_cases hA : a = A
      · subst hA
        simpa [exclGet, lookupMap] using (by simpa [exclGet, lookupMap] using h)
      · have h2 : p ∈ exclGet tl A := by simpa [exclGet, lookupMap, hA] using h
        simpa [exclGet, lookupMap, hA] using ih h2

theorem foldComment_unwatch (n : Nat) (st : ReplayState) (c : Comment) (A p : String)
    (h : parseUnwatch c.body = some (A, p)) :
    (foldComment n st c).bindings = st.bindings ∧
    (foldComment n st c).exclusions = exclAdd A p st.exclusions := by
  unfold foldComment
  rw [h]
  exact ⟨rfl, rfl⟩

theorem excl_mono_foldComment (n : Nat) (st : ReplayState) (c : Comment) (A p : String)
    (h : p ∈ exclGet st.exclusions A) : p ∈ exclGet (foldComment n st c).exclusions A := by
  unfold foldComment
  cases hu : parseUnwatch c.body with
  | some v =>
    obtain ⟨B, q⟩ := v
    exact mem_exclGet_exclAdd _ _ _ _ _ h
  | none =>
    cases hw : parseWatch c.body with
    | some v =>
      obtain ⟨pp, rest⟩ := v
      obtain ⟨ag, ar⟩ := rest
      exact h
    | none => exact h

theorem excl_mono_foldComments (n : Nat) (l : List Comment) :
    ∀ (st : ReplayState) (A p : String), p ∈ exclGet st.exclusions A →
      p ∈ exclGet ((l.foldl (foldComment n) st).exclusions) A := by
  induction l with
  | nil => intro st A p h; simpa using h
  | cons c tl ih =>
    intro st A p h
    exact ih _ _ _ (excl_mono_foldComment n st c A p h)

theorem excl_fold_of_mem (n : Nat) (l : List Comment) :
    ∀ (st : ReplayState) (c : Comment) (A p : String), c ∈ l →
      parseUnwatch c.body = some (A, p) →
      p ∈ exclGet ((l.foldl (foldComment n) st).exclusions) A := by
  induction l with
  | nil => intro st c A p hc _; cases hc
  | cons d tl ih =>
    intro st c A p hc h
    simp only [List.foldl_cons]
    rcases List.mem_cons.mp hc with rfl | hmem
    · apply excl_mono_foldComments
      rw [(foldComment_unwatch n st c A p h).2]
      exact mem_exclGet_exclAdd_self _ _ _
    · exact ih _ _ _ _ hmem h

theorem mem_insertByTime {c x : Comment} {l : List Comment} (h : x ∈ l ∨ x = c) :
    x ∈ insertByTime c l := by
  induction l with
  | nil =>
    rcases h with h | rfl
    · cases h
    · simp [insertByTime]
  | cons d ds ih =>
    unfold insertByTime
    split
    · rcases h with h | rfl
      · rcases List.mem_cons.mp h with rfl | h2
        · exact List.mem_cons_self _ _
        · exact List.mem_cons_of_mem _ (ih (Or.inl h2))
      · exact List.mem_cons_of_mem _ (ih (Or.inr rfl))
    · rcases h with h | rfl
      · exact List.mem_cons_of_mem _ h
      · exact List.mem_cons_self _ _

theorem mem_sortComments_aux (l : List Comment) :
    ∀ (acc : List Comment) (c : Comment), c ∈ acc ∨ c ∈ l →
      c ∈ l.foldl (fun acc c => insertByTime c acc) acc := by
  induction l with
  | nil =>
    intro acc c h
    rcases h with h | h
    · simpa using h
    · cases h
  | cons d ds ih =>
    intro acc c h
    simp only [List.foldl_cons]
    apply ih
    rcases h with h | h
    · exact Or.inl (mem_insertByTime (Or.inl h))
    · rcases List.mem_cons.mp h with rfl | h2
      · exact Or.inl (mem_insertByTime (Or.inr rfl))
      · exact Or.inr h2

theorem mem_sortComments {l : List Comment} {c : Comment} (h : c ∈ l) :
    c ∈ sortComments l :=
  mem_sortComments_aux l [] c (Or.inr h)

theorem excl_mono_foldPR (st : ReplayState) (pr : PRData) (A p : String)
    (h : p ∈ exclGet st.exclusions A) : p ∈ exclGet (foldPR st pr).exclusions A :=
  excl_mono_foldComments _ _ _ _ _ h

theorem excl_foldPR_of_mem (st : ReplayState) (pr : PRData) (c : Comment) (A p : String)
    (hc : c ∈ pr.issueComments ++ pr.reviewComments)
    (h : parseUnwatch c.body = some (A, p)) :
    p ∈ exclGet (foldPR st pr).exclusions A :=
  excl_fold_of_mem _ _ _ _ _ _ (mem_sortComments hc) h

theorem excl_mono_replayFold (current : Nat) (prs : List PRData) :
    ∀ (st : ReplayState) (A p : String), p ∈ exclGet st.exclusions A →
      p ∈ exclGet ((prs.foldl
        (fun st pr => if pr.number = current then st else foldPR st pr) st).exclusions) A := by
  induction prs with
  | nil => intro st A p h; simpa using h
  | cons q tl ih =>
    intro st A p h
    simp only [List.foldl_cons]
    by_cases hn : q.number = current
    · rw [if_pos hn]; exact ih _ _ _ h
    · rw [if_neg hn]; exact ih _ _ _ (excl_mono_foldPR _ _ _ _ h)

theorem excl_replayFold_of_mem (current : Nat) (pr : PRData) (c : Comment) (A p : String)
    (hskip : pr.number ≠ current)
    (hc : c ∈ pr.issueComments ++ pr.reviewComments)
    (h : parseUnwatch c.body = some (A, p)) :
    ∀ (prs : List PRData) (st : ReplayState), pr ∈ prs →
      p ∈ exclGet ((prs.foldl
        (fun st pr => if pr.number = current then st else foldPR st pr) st).exclusions) A := by
  intro prs
  induction prs with
  | nil => intro st hpr; cases hpr
  | cons q tl ih =>
    intro st hpr
    simp only [List.foldl_cons]
    rcases List.mem_cons.mp hpr with rfl | hmem
    · rw [if_neg hskip]
      exact excl_mono_replayFold current tl _ A p (excl_foldPR_of_mem st pr c A p hc h)
    · exact ih _ hmem

theorem agent_of_mem_addFilesForBinding (pstr : String) (info : WatchInfo) :
    ∀ (fl proc : List String) (inv : Invocation),
      inv ∈ (addFilesForBinding pstr info fl proc).1 →
      inv.agent = info.agent ∧ inv.file_path ∈ fl := by
  intro fl
  induction fl with
  | nil => intro proc inv h; simp [addFilesForBinding] at h
  | cons f fs ih =>
    intro proc inv h
    unfold addFilesForBinding at h
    by_cases hk : (f ++ ":" ++ info.agent) ∈ proc
    · rw [if_pos hk] at h
      obtain ⟨ha, hf⟩ := ih _ _ h
      exact ⟨ha, List.mem_cons_of_mem _ hf⟩
    · rw [if_neg hk] at h
      rcases List.mem_cons.mp h with rfl | h2
      · exact ⟨rfl, List.mem_cons_self _ _⟩
      · obtain ⟨ha, hf⟩ := ih _ _ h2
        exact ⟨ha, List.mem_cons_of_mem _ hf⟩

theorem computeInvs_not_excluded (excl : List (String × List String)) :
    ∀ (bs : List (String × WatchInfo)) (files proc : List String) (inv : Invocation),
      inv ∈ computeInvs excl bs files proc →
      fileExcluded excl inv.agent inv.file_path = false := by
  intro bs
  induction bs with
  | nil => intro files proc inv h; simp [computeInvs] at h
  | cons b tl ih =>
    obtain ⟨pstr, info⟩ := b
    intro files proc inv h
    unfold computeInvs at h
    rcases List.mem_append.mp h with h1 | h2
    · obtain ⟨ha, hf⟩ := agent_of_mem_addFilesForBinding pstr info _ _ inv h1
      have hok := List.of_mem_filter hf
      unfold bindingFileOk at hok
      rw [Bool.and_eq_true] at hok
      obtain ⟨hokm, hoke⟩ := hok
      rw [ha]
      cases hfe : fileExcluded excl info.agent inv.file_path with
      | false => rfl
      | true => rw [hfe] at hoke; exact absurd hoke (by decide)
    · exact ih _ _ _ h2

theorem fileExcluded_of_mem (excl : List (String × List String)) (A p f : String)
    (hp : p ∈ exclGet excl A) (hm : matchPattern p f = true) :
    fileExcluded excl A f = true := by
  unfold fileExcluded
  unfold exclGet at hp
  cases hl : lookupMap A excl with
  | none => rw [hl] at hp; simp at hp
  | some ps =>
    rw [hl] at hp
    simp at hp
    rw [List.any_eq_true]
    exact ⟨p, hp, hm⟩

/-! ## Claim theorems -/

/-- C10: matcher reflexivity — for every string `s`, `matchPattern s s`
returns `true`, by the direct string-equality branch (or the `*` branch),
before any regex compilation, hence even for patterns whose compiled form
would not accept `s` or would not compile at all. -/
theorem c10_match_self (s : String) : matchPattern s s = true := by
  unfold matchPattern
  by_cases h : s = "*"
  · rw [if_pos h]
  · rw [if_neg h, if_pos rfl]

/-- C5 (evaluation at the failing and passing inputs): the single star
refuses directory crossing and the claimed two concrete examples hold, but
the double star does not match a path with two directory levels — the
single-star replacement also rewrites the star of the `.*` that the
double-star replacement produced, so `**` compiles to `.[^/]*` and can
never span two separators.  The claim's universal double-star clause is
false at `a/b/c.js`. -/
theorem c5_separator_semantics_eval :
    matchPattern "*.js" "a/b.js" = false ∧
    matchPattern "**/*.js" "a/b.js" = true ∧
    matchPattern "**/*.js" "a/b/c.js" = false := by
  refine ⟨by decide, by decide, by decide⟩

/-- C6 (evaluation at the failing inputs): the escape pass escapes braces
before the alternation pass runs, so the brace group of the pattern
compiles to a broken alternation between two literal-parenthesis arms
instead of a group, and none of the claimed inputs match. -/
theorem c6_brace_alternation_eval :
    matchPattern "\x7ba,b\x7d.js" "a.js" = false ∧
    matchPattern "\x7ba,b\x7d.js" "b.js" = false ∧
    matchPattern "\x7ba,b\x7d.js" "c.js" = false := by
  refine ⟨by decide, by decide, by decide⟩

/-- C7 counterexample: the pattern `[` compiles to the invalid regex
source `^[$` (unterminated class), yet `matchPattern` applied to the path
`[` returns `true` through the direct string-equality branch that runs
before compilation — so an invalid pattern does *not* return `false` for
every path. -/
theorem c7_counterexample :
    compileRegex (globToRegexStr "[") = none ∧ matchPattern "[" "[" = true := by
  refine ⟨by decide, by decide⟩

/-- C7 amended: the matcher is a total Boolean function (the embedded
`matchPattern` returns a value for every pattern and path, mirroring the
source's try/catch), and whenever the pattern compiles to an invalid
regular expression it returns `false` for every path other than the
pattern string itself (the pre-compilation special cases).  The literal
pattern `*` always compiles, so only the equality case remains. -/
theorem c7_invalid_pattern_degrades (p f : String)
    (hc : compileRegex (globToRegexStr p) = none) (hne : f ≠ p) :
    matchPattern p f = false := by
  unfold matchPattern
  rw [if_neg, if_neg, hc]
  · exact fun h => hne h.symm
  · intro h
    rw [h] at hc
    exact absurd hc (by decide)

theorem c7_invalid_pattern_degrades_witness :
    compileRegex (globToRegexStr "[") = none ∧ ("a" : String) ≠ "[" ∧
    matchPattern "[" "a" = false :=
  ⟨by decide, by decide, c7_invalid_pattern_degrades "[" "a" (by decide) (by decide)⟩

/-- C9 counterexample: the history-replay folding regex
`/@agent-watch\s+([^\s]+)\s+(\w+)\s*(.*)/` does not recognise the ` @ `
separator: on the claimed body it captures `@ --strict`, not `--strict`,
as the args. -/
theorem c9_counterexample :
    parseWatch "@agent-watch src/**/*.ts typecheck @ --strict" =
      some ("src/**/*.ts", "typecheck", "@ --strict") ∧
    ("@ --strict" : String) ≠ "--strict" := by
  refine ⟨by decide, by decide⟩

/-- C9 amended: the live comment path of `handleComment` parses the body
to pattern `src/**/*.ts`, agent `typecheck` and args `--strict` (the text
after the ` @ ` separator, trimmed), but the history-replay fold stores
everything after the agent token verbatim — args `@ --strict` — because
its regex never strips the separator. -/
theorem c9_parse_live_vs_replay :
    parseLiveWatch "@agent-watch src/**/*.ts typecheck @ --strict" =
      some ("src/**/*.ts", "typecheck", "--strict") ∧
    (foldComment 1 ⟨[], []⟩ ⟨"@agent-watch src/**/*.ts typecheck @ --strict", 0, 0⟩).bindings =
      [("src/**/*.ts", ⟨"typecheck", "@ --strict", 1⟩)] := by
  refine ⟨by decide, by decide⟩

/-- C1 counterexample: two pull requests, where the earlier-listed pull
request holds `Watch(p.js, beta)` at timestamp 2 and the later-listed one
holds `Watch(p.js, alpha)` at timestamp 1.  Under the claim's global
timestamp order the binding for `p.js` would be `beta` (timestamp 2 > 1);
the replay instead processes pull requests sequentially and the
later-processed pull request's earlier-timestamped watch wins: the binding
is `alpha`. -/
theorem c1_counterexample :
    lookupMap "p.js" ((replayState 3
      [⟨1, [⟨"@agent-watch p.js beta", 2, 1⟩], []⟩,
       ⟨2, [⟨"@agent-watch p.js alpha", 1, 2⟩], []⟩]).bindings) =
      some ⟨"alpha", "", 2⟩ ∧
    ("alpha" : String) ≠ "beta" := by
  refine ⟨by decide, by decide⟩

/-- C1 amended: comments are merged and sorted by creation timestamp only
*within* one pull request (a stable sort, ties keeping fetch order — the
comment identifier is never consulted), and pull requests are processed
sequentially in listing order; consequently supersession by timestamp
holds when both watch commands live on the same pull request: with
`Watch(p.js, alpha)` at `t1` and `Watch(p.js, beta)` at `t2 > t1` on one
pull request (listed here in reverse order to exercise the sort), the
binding for `p.js` has agent `beta`. -/
theorem c1_same_pr_supersession (t1 t2 i1 i2 cur n : Nat)
    (h : t1 < t2) (hskip : n ≠ cur) :
    lookupMap "p.js" ((replayState cur
      [⟨n, [⟨"@agent-watch p.js beta", t2, i1⟩,
            ⟨"@agent-watch p.js alpha", t1, i2⟩], []⟩]).bindings) =
      some ⟨"beta", "", n⟩ := by
  have hsort : sortComments ([⟨"@agent-watch p.js beta", t2, i1⟩,
      ⟨"@agent-watch p.js alpha", t1, i2⟩] ++ []) =
      [⟨"@agent-watch p.js alpha", t1, i2⟩, ⟨"@agent-watch p.js beta", t2, i1⟩] := by
    simp [sortComments, insertByTime, Nat.not_le.mpr h]
  unfold replayState
  simp only [List.foldl_cons, List.foldl_nil]
  rw [if_neg hskip]
  unfold foldPR
  rw [hsort]
  rfl

theorem c1_same_pr_supersession_witness :
    (0 : Nat) < 1 ∧ (1 : Nat) ≠ 3 ∧
    lookupMap "p.js" ((replayState 3
      [⟨1, [⟨"@agent-watch p.js beta", 1, 5⟩,
            ⟨"@agent-watch p.js alpha", 0, 6⟩], []⟩]).bindings) =
      some ⟨"beta", "", 1⟩ :=
  ⟨by decide, by decide, c1_same_pr_supersession 0 1 5 6 3 1 (by decide) (by decide)⟩

/-- C2 counterexample: after `Watch(a.js, alpha)` then
`Unwatch(alpha, a.js)` on one pull request, the claim says the binding
with pattern exactly `a.js` has been removed from the bindings table; in
the code the unwatch branch of the fold only records the exclusion and the
binding survives. -/
theorem c2_counterexample :
    lookupMap "a.js" ((replayState 9
      [⟨1, [⟨"@agent-watch a.js alpha", 1, 1⟩,
            ⟨"@agent-unwatch alpha a.js", 2, 2⟩], []⟩]).bindings) =
      some ⟨"alpha", "", 1⟩ ∧
    exclGet ((replayState 9
      [⟨1, [⟨"@agent-watch a.js alpha", 1, 1⟩,
            ⟨"@agent-unwatch alpha a.js", 2, 2⟩], []⟩]).exclusions) "alpha" =
      ["a.js"] := by
  refine ⟨by decide, by decide⟩

/-- C2 amended: an unwatch command naming agent `A` and pattern `p` leaves
the bindings table unchanged and records `p` in `A`'s exclusion set; the
removal of matches happens only at match time, where any file matching an
exclusion pattern of `A` produces no invocation for `A` — even under a
different, broader binding. -/
theorem c2_unwatch_excludes_only :
    (∀ (n : Nat) (st : ReplayState) (c : Comment) (A p : String),
        parseUnwatch c.body = some (A, p) →
        (foldComment n st c).bindings = st.bindings ∧
        p ∈ exclGet (foldComment n st c).exclusions A) ∧
    (∀ (st : ReplayState) (files : List String) (A p f : String),
        p ∈ exclGet st.exclusions A → matchPattern p f = true →
        ∀ inv ∈ computeInvocations st files,
          ¬(inv.agent = A ∧ inv.file_path = f)) := by
  constructor
  · intro n st c A p h
    obtain ⟨hb, he⟩ := foldComment_unwatch n st c A p h
    refine ⟨hb, ?_⟩
    rw [he]
    exact mem_exclGet_exclAdd_self _ _ _
  · intro st files A p f hp hm inv hinv hcon
    obtain ⟨ha, hf⟩ := hcon
    have hne := computeInvs_not_excluded st.exclusions st.bindings files [] inv hinv
    rw [ha, hf] at hne
    rw [fileExcluded_of_mem st.exclusions A p f hp hm] at hne
    cases hne

theorem c2_unwatch_excludes_only_witness :
    (parseUnwatch "@agent-unwatch alpha a.js" = some ("alpha", "a.js") ∧
      (foldComment 1 ⟨[("a.js", ⟨"alpha", "", 1⟩)], []⟩
        ⟨"@agent-unwatch alpha a.js", 2, 2⟩).bindings = [("a.js", ⟨"alpha", "", 1⟩)] ∧
      "a.js" ∈ exclGet (foldComment 1 ⟨[("a.js", ⟨"alpha", "", 1⟩)], []⟩
        ⟨"@agent-unwatch alpha a.js", 2, 2⟩).exclusions "alpha") ∧
    ("a.js" ∈ exclGet (ReplayState.mk
        [("a.js", ⟨"alpha", "", 1⟩), ("b.js", ⟨"beta", "", 1⟩)]
        [("alpha", ["a.js"])]).exclusions "alpha" ∧
      matchPattern "a.js" "a.js" = true ∧
      (⟨"b.js", "beta", "", "b.js"⟩ : Invocation) ∈ computeInvocations
        (ReplayState.mk [("a.js", ⟨"alpha", "", 1⟩), ("b.js", ⟨"beta", "", 1⟩)]
          [("alpha", ["a.js"])]) ["a.js", "b.js"] ∧
      ¬((⟨"b.js", "beta", "", "b.js"⟩ : Invocation).agent = "alpha" ∧
        (⟨"b.js", "beta", "", "b.js"⟩ : Invocation).file_path = "a.js")) := by
  obtain ⟨h1, h2⟩ := c2_unwatch_excludes_only
  have hu : parseUnwatch "@agent-unwatch alpha a.js" = some ("alpha", "a.js") := by decide
  obtain ⟨hb, he⟩ := h1 1 ⟨[("a.js", ⟨"alpha", "", 1⟩)], []⟩
    ⟨"@agent-unwatch alpha a.js", 2, 2⟩ "alpha" "a.js" hu
  refine ⟨⟨hu, hb, he⟩, ⟨by decide, by decide, by decide, ?_⟩⟩
  exact h2 (ReplayState.mk [("a.js", ⟨"alpha", "", 1⟩), ("b.js", ⟨"beta", "", 1⟩)]
      [("alpha", ["a.js"])]) ["a.js", "b.js"] "alpha" "a.js" "a.js"
    (by decide) (by decide) ⟨"b.js", "beta", "", "b.js"⟩ (by decide)

/-- C3 counterexample: after `Watch(a.js, alpha)` at timestamp 1 and
`Unwatch(alpha, *)` at timestamp 2, the claim says every binding created
before the clear has been removed; in the code the star unwatch only adds
`*` to the agent's exclusion set and the binding survives in the table. -/
theorem c3_counterexample :
    lookupMap "a.js" ((replayState 9
      [⟨1, [⟨"@agent-watch a.js alpha", 1, 1⟩,
            ⟨"@agent-unwatch alpha *", 2, 2⟩], []⟩]).bindings) =
      some ⟨"alpha", "", 1⟩ ∧
    exclGet ((replayState 9
      [⟨1, [⟨"@agent-watch a.js alpha", 1, 1⟩,
            ⟨"@agent-unwatch alpha *", 2, 2⟩], []⟩]).exclusions) "alpha" =
      ["*"] := by
  refine ⟨by decide, by decide⟩

/-- C3 amended: an unwatch with pattern `*` removes no binding; it records
`*` in the issuing agent's exclusion set, and since `*` matches every
path, match time yields no invocation at all for that agent from any
binding (created before or after the clear), while bindings for other
agents are unaffected. -/
theorem c3_unwatch_star_suppresses :
    (∀ (n : Nat) (st : ReplayState) (c : Comment) (A : String),
        parseUnwatch c.body = some (A, "*") →
        (foldComment n st c).bindings = st.bindings ∧
        "*" ∈ exclGet (foldComment n st c).exclusions A) ∧
    (∀ (st : ReplayState) (files : List String) (A : String),
        "*" ∈ exclGet st.exclusions A →
        ∀ inv ∈ computeInvocations st files, inv.agent ≠ A) := by
  constructor
  · intro n st c A h
    obtain ⟨hb, he⟩ := foldComment_unwatch n st c A "*" h
    refine ⟨hb, ?_⟩
    rw [he]
    exact mem_exclGet_exclAdd_self _ _ _
  · intro st files A hp inv hinv ha
    have hne := computeInvs_not_excluded st.exclusions st.bindings files [] inv hinv
    rw [ha] at hne
    rw [fileExcluded_of_mem st.exclusions A "*" inv.file_path hp rfl] at hne
    cases hne

theorem c3_unwatch_star_suppresses_witness :
    (parseUnwatch "@agent-unwatch alpha *" = some ("alpha", "*") ∧
      (foldComment 1 ⟨[("a.js", ⟨"alpha", "", 1⟩)], []⟩
        ⟨"@agent-unwatch alpha *", 2, 2⟩).bindings = [("a.js", ⟨"alpha", "", 1⟩)] ∧
      "*" ∈ exclGet (foldComment 1 ⟨[("a.js", ⟨"alpha", "", 1⟩)], []⟩
        ⟨"@agent-unwatch alpha *", 2, 2⟩).exclusions "alpha") ∧
    ("*" ∈ exclGet (ReplayState.mk
        [("a.js", ⟨"alpha", "", 1⟩), ("b.js", ⟨"beta", "", 1⟩)]
        [("alpha", ["*"])]).exclusions "alpha" ∧
      (⟨"b.js", "beta", "", "b.js"⟩ : Invocation) ∈ computeInvocations
        (ReplayState.mk [("a.js", ⟨"alpha", "", 1⟩), ("b.js", ⟨"beta", "", 1⟩)]
          [("alpha", ["*"])]) ["a.js", "b.js"] ∧
      (⟨"b.js", "beta", "", "b.js"⟩ : Invocation).agent ≠ "alpha") := by
  obtain ⟨h1, h2⟩ := c3_unwatch_star_suppresses
  have hu : parseUnwatch "@agent-unwatch alpha *" = some ("alpha", "*") := by decide
  obtain ⟨hb, he⟩ := h1 1 ⟨[("a.js", ⟨"alpha", "", 1⟩)], []⟩
    ⟨"@agent-unwatch alpha *", 2, 2⟩ "alpha" hu
  refine ⟨⟨hu, hb, he⟩, ⟨by decide, by decide, ?_⟩⟩
  exact h2 (ReplayState.mk [("a.js", ⟨"alpha", "", 1⟩), ("b.js", ⟨"beta", "", 1⟩)]
      [("alpha", ["*"])]) ["a.js", "b.js"] "alpha" (by decide)
    ⟨"b.js", "beta", "", "b.js"⟩ (by decide)

/-- C4 counterexample: an invocation that succeeds on a pull request whose
label set already carries the `failed` marker (say from an earlier failed
invocation — no code path ever removes a terminal label) ends with *both*
terminal markers present, refuting the claim's "exactly one of the
terminal marker labels is present". -/
theorem c4_counterexample :
    failedLabel ∈ launchAgentLabels "echo" .success [failedLabel] ∧
    seenLabel "echo" ∈ launchAgentLabels "echo" .success [failedLabel] := by
  refine ⟨by decide, by decide⟩

/-- C4 amended: for every invocation (success, raised error, or
unresolvable agent name — the latter two share the failure outcome), the
cleanup phase runs unconditionally, so after completion the `running`
marker is absent and the invocation's own terminal label (`seen:agent` on
success, `failed` on error) is present; *exactly one* of the two terminal
markers is present provided neither was present before the invocation
(terminal labels accumulate across invocations, the code never removes
them). -/
theorem c4_label_invariant (agent : String) (oc : AgentOutcome) (ls : List String) :
    runningLabel ∉ launchAgentLabels agent oc ls ∧
    terminalLabel agent oc ∈ launchAgentLabels agent oc ls ∧
    (failedLabel ∉ ls → seenLabel agent ∉ ls →
      (seenLabel agent ∈ launchAgentLabels agent oc ls ∧
        failedLabel ∉ launchAgentLabels agent oc ls) ∨
      (failedLabel ∈ launchAgentLabels agent oc ls ∧
        seenLabel agent ∉ launchAgentLabels agent oc ls)) := by
  have hrt : terminalLabel agent oc ≠ runningLabel := by
    cases oc
    · exact seenLabel_ne_runningLabel agent
    · exact failedLabel_ne_runningLabel
  refine ⟨?_, ?_, ?_⟩
  · intro h
    rcases mem_addLabel.mp h with h2 | h2
    · exact (mem_removeLabel.mp h2).2 rfl
    · exact hrt h2.symm
  · exact mem_addLabel.mpr (Or.inr rfl)
  · intro hf hs
    cases oc with
    | success =>
      left
      constructor
      · exact mem_addLabel.mpr (Or.inr rfl)
      · intro h
        rcases mem_addLabel.mp h with h2 | h2
        · rcases mem_removeLabel.mp h2 with ⟨h3, _⟩
          rcases mem_addLabel.mp h3 with h4 | h4
          · exact hf h4
          · exact failedLabel_ne_runningLabel h4
        · exact seenLabel_ne_failedLabel agent h2.symm
    | failure =>
      right
      constructor
      · exact mem_addLabel.mpr (Or.inr rfl)
      · intro h
        rcases mem_addLabel.mp h with h2 | h2
        · rcases mem_removeLabel.mp h2 with ⟨h3, _⟩
          rcases mem_addLabel.mp h3 with h4 | h4
          · exact hs h4
          · exact seenLabel_ne_runningLabel agent h4
        · exact seenLabel_ne_failedLabel agent h2

theorem c4_label_invariant_witness :
    runningLabel ∉ launchAgentLabels "echo" .success [] ∧
    terminalLabel "echo" .success ∈ launchAgentLabels "echo" .success [] ∧
    failedLabel ∉ ([] : List String) ∧ seenLabel "echo" ∉ ([] : List String) ∧
    ((seenLabel "echo" ∈ launchAgentLabels "echo" .success [] ∧
        failedLabel ∉ launchAgentLabels "echo" .success []) ∨
      (failedLabel ∈ launchAgentLabels "echo" .success [] ∧
        seenLabel "echo" ∉ launchAgentLabels "echo" .success [])) := by
  obtain ⟨h1, h2, h3⟩ := c4_label_invariant "echo" .success []
  exact ⟨h1, h2, by decide, by decide, h3 (by decide) (by decide)⟩

/-- C8: exclusion persists across rebind.  For every replayed history in
which some non-skipped pull request holds an `Unwatch(A, x.js)` comment
and some pull request holds a later `Watch(**/*.js, A)` comment, matching
any file list yields no invocation for agent `A` on file `x.js`:
exclusions are never removed by the fold and are consulted at match time,
where `x.js` matches itself by the direct-equality branch, so every
binding for `A` — including one created after the exclusion — is vetoed on
that file. -/
theorem c8_exclusion_persists (current : Nat) (prs : List PRData)
    (prU prW : PRData) (cu cw : Comment) (A wargs : String)
    (hprU : prU ∈ prs) (hskip : prU.number ≠ current)
    (hcu : cu ∈ prU.issueComments ++ prU.reviewComments)
    (hu : parseUnwatch cu.body = some (A, "x.js"))
    (hprW : prW ∈ prs)
    (hcw : cw ∈ prW.issueComments ++ prW.reviewComments)
    (hw : parseWatch cw.body = some ("**/*.js", A, wargs))
    (hord : cu.created_at < cw.created_at)
    (files : List String) :
    ∀ inv ∈ computeInvocations (replayState current prs) files,
      ¬(inv.agent = A ∧ inv.file_path = "x.js") := by
  intro inv hinv hcon
  obtain ⟨ha, hf⟩ := hcon
  have hexcl : "x.js" ∈ exclGet (replayState current prs).exclusions A := by
    unfold replayState
    exact excl_replayFold_of_mem current prU cu A "x.js" hskip hcu hu prs ⟨[], []⟩ hprU
  have hne := computeInvs_not_excluded (replayState current prs).exclusions
    (replayState current prs).bindings files [] inv hinv
  rw [ha, hf] at hne
  rw [fileExcluded_of_mem _ A "x.js" "x.js" hexcl (by decide)] at hne
  cases hne

theorem c8_exclusion_persists_witness :
    (⟨1, [⟨"@agent-unwatch alpha x.js", 1, 1⟩,
          ⟨"@agent-watch **/*.js alpha", 2, 2⟩], []⟩ : PRData) ∈
      [(⟨1, [⟨"@agent-unwatch alpha x.js", 1, 1⟩,
             ⟨"@agent-watch **/*.js alpha", 2, 2⟩], []⟩ : PRData)] ∧
    (1 : Nat) ≠ 2 ∧
    (⟨"@agent-unwatch alpha x.js", 1, 1⟩ : Comment) ∈
      ([⟨"@agent-unwatch alpha x.js", 1, 1⟩,
        ⟨"@agent-watch **/*.js alpha", 2, 2⟩] ++ ([] : List Comment)) ∧
    parseUnwatch "@agent-unwatch alpha x.js" = some ("alpha", "x.js") ∧
    (⟨"@agent-watch **/*.js alpha", 2, 2⟩ : Comment) ∈
      ([⟨"@agent-unwatch alpha x.js", 1, 1⟩,
        ⟨"@agent-watch **/*.js alpha", 2, 2⟩] ++ ([] : List Comment)) ∧
    parseWatch "@agent-watch **/*.js alpha" = some ("**/*.js", "alpha", "") ∧
    (1 : Nat) < 2 ∧
    ((⟨"a/b.js", "alpha", "", "**/*.js"⟩ : Invocation) ∈ computeInvocations
      (replayState 2 [⟨1, [⟨"@agent-unwatch alpha x.js", 1, 1⟩,
                           ⟨"@agent-watch **/*.js alpha", 2, 2⟩], []⟩])
      ["x.js", "a/b.js"] ∧
    ¬((⟨"a/b.js", "alpha", "", "**/*.js"⟩ : Invocation).agent = "alpha" ∧
      (⟨"a/b.js", "alpha", "", "**/*.js"⟩ : Invocation).file_path = "x.js")) := by
  refine ⟨by decide, by decide, by decide, by decide, by decide, by decide, by decide,
    by decide, ?_⟩
  exact c8_exclusion_persists 2
    [⟨1, [⟨"@agent-unwatch alpha x.js", 1, 1⟩, ⟨"@agent-watch **/*.js alpha", 2, 2⟩], []⟩]
    ⟨1, [⟨"@agent-unwatch alpha x.js", 1, 1⟩, ⟨"@agent-watch **/*.js alpha", 2, 2⟩], []⟩
    ⟨1, [⟨"@agent-unwatch alpha x.js", 1, 1⟩, ⟨"@agent-watch **/*.js alpha", 2, 2⟩], []⟩
    ⟨"@agent-unwatch alpha x.js", 1, 1⟩ ⟨"@agent-watch **/*.js alpha", 2, 2⟩
    "alpha" "" (by decide) (by decide) (by decide) (by decide) (by decide) (by decide)
    (by decide) (by decide) ["x.js", "a/b.js"]
    ⟨"a/b.js", "alpha", "", "**/*.js"⟩ (by decide)

end AgentWatch
